import Mathlib

/-!
Verification of the cupSODA simulator adapter (`pysb/simulator/cupsoda.py`).

This file gives a shallow embedding of the adapter's pure core — the
rate-matrix compiler (`_get_cmatrix`), the initial-value encoder and the
output rescale (`_create_input_files` / `_load_trajectories`), the
output-species selector, the GPU block planner (`_get_nblocks`), the
output-file discovery guards, the subprocess error mapping, the binary
discovery chain (`_get_cupsoda_path`) and the input-file text layout —
and proves or refutes the specified properties about them.

Machine floats are embedded as exact rationals; file contents are
embedded as the strings the code writes.
-/

namespace Cupsoda

/-- `scipy.constants.N_A` (Avogadro's number, CODATA 2014: 6.022140857e23),
embedded as an exact rational. -/
def N_A : ℚ := 602214085700000000000000

/-- Numeric value of a list of decimal digit characters, most significant
first (the accumulator loop of a decimal parse). -/
def digitsVal (l : List Char) : ℕ :=
  l.foldl (fun n c => 10 * n + (c.toNat - 48)) 0

/-- Models Python's builtin `float()` on plain decimal literals
(optional sign, integer part, optional fractional part): `some` of the
exact rational value on a well-formed literal, `none` when `float()`
would raise `ValueError`.  (Exponent forms, which the adapter's rate
arguments do not use, are not modelled.) -/
def parseFloat (s : String) : Option ℚ :=
  let cs := s.toList
  let sgn : Bool × List Char :=
    match cs with
    | '-' :: t => (true, t)
    | '+' :: t => (false, t)
    | _ => (false, cs)
  let ip := sgn.2.takeWhile Char.isDigit
  let rest := sgn.2.dropWhile Char.isDigit
  let val : Option ℚ :=
    match rest with
    | [] => if ip.isEmpty then none else some (digitsVal ip : ℚ)
    | '.' :: fp =>
      if fp.all Char.isDigit && (!ip.isEmpty || !fp.isEmpty) then
        some ((digitsVal ip : ℚ) + (digitsVal fp : ℚ) / (10 : ℚ) ^ fp.length)
      else none
    | _ => none
  val.map (fun v => if sgn.1 then -v else v)

/-- `re.match("_*s", str(arg))` as a predicate on the argument's string
form: true exactly when the string begins with zero or more underscores
followed by the letter `s` (cupsoda.py line 486). -/
def matchesSpeciesArg (s : String) : Bool :=
  (s.toList.dropWhile (fun c => c = '_')).head? = some 's'

/-- One reaction of the generated network: reactant and product species
indices (ordered multisets) and the string forms of the arguments of the
symbolic rate expression (`str(arg)` for `arg` in `rxn['rate'].args`). -/
structure Reaction where
  reactants : List ℕ
  products : List ℕ
  rateArgs : List String
deriving DecidableEq, Repr

/-- Error taxonomy for a single rate-argument evaluation.
`_get_cmatrix` coerces unrecognized arguments with `float()`, which can
only raise `ValueError`; a `ConfigurationError` constructor is present in
the taxonomy but the code never produces it (the `FIXME` at
cupsoda.py line 505). -/
inductive EvalErr where
  | valueError
  | configurationError
deriving DecidableEq, Repr

/-- Evaluate one retained rate argument against a parameter row
(cupsoda.py lines 500-506): a recognized rate-parameter name takes the
row's value, anything else is coerced with `float()`. -/
def evalArg (row : List (String × ℚ)) (x : String) : Except EvalErr ℚ :=
  match row.lookup x with
  | some v => Except.ok v
  | none =>
    match parseFloat x with
    | some q => Except.ok q
    | none => Except.error EvalErr.valueError

/-- The rate arguments retained for a reaction: all arguments whose string
form does not match `_*s` (cupsoda.py lines 485-486). -/
def retainedArgs (args : List String) : List String :=
  args.filter (fun a => !matchesSpeciesArg a)

/-- `rate_order` for a reaction: the number of reactant occurrences whose
species string is not `__source()` (cupsoda.py lines 487-491). -/
def rateOrder (species : List String) (r : Reaction) : ℕ :=
  (r.reactants.filter (fun i => !(species.getD i "" == "__source()"))).length

/-- The running product `rate` over the retained arguments
(cupsoda.py lines 499-506), propagating the first evaluation failure. -/
def rateProduct (row : List (String × ℚ)) : List String → Except EvalErr ℚ
  | [] => Except.ok 1
  | a :: rest => do
    let v ← evalArg row a
    let p ← rateProduct row rest
    Except.ok (v * p)

/-- One cell of the rate matrix (`_get_cmatrix` inner loop, cupsoda.py
lines 498-510): the product of the evaluated retained rate arguments,
multiplied — when a volume is configured (`if self.vol:` is truthy, i.e.
`vol` is present and nonzero) — by `(N_A * vol) ^ (rate_order - 1)`. -/
def cmatrixCell (vol : Option ℚ) (species : List String)
    (row : List (String × ℚ)) (r : Reaction) : Except EvalErr ℚ := do
  let p ← rateProduct row (retainedArgs r.rateArgs)
  match vol with
  | some v =>
    if v = 0 then Except.ok p
    else Except.ok (p * (N_A * v) ^ ((rateOrder species r : ℤ) - 1))
  | none => Except.ok p

/-- The full rate matrix `c_matrix`: one row per parameter row, one column
per reaction (cupsoda.py lines 495-510). -/
def cmatrix (vol : Option ℚ) (species : List String)
    (rows : List (List (String × ℚ))) (rxns : List Reaction) :
    List (List (Except EvalErr ℚ)) :=
  rows.map (fun row => rxns.map (fun r => cmatrixCell vol species row r))

/-- One row of the `MX_0` encoding (cupsoda.py lines 417-431): each cell
is divided by `N_A * vol`, except that the cell at the first species
index whose string is `__source()` is overwritten with `1`.  `k` is the
absolute species index of the first cell of `row`; `srcIdx` is the index
of the first source pseudo-species, when one exists. -/
def encodeRow (v : ℚ) (srcIdx : Option ℕ) : ℕ → List ℚ → List ℚ
  | _, [] => []
  | k, x :: rest =>
    (if srcIdx = some k then 1 else x / (N_A * v)) :: encodeRow v srcIdx (k + 1) rest

/-- The `MX_0` matrix written by `_create_input_files` (cupsoda.py lines
417-440): when a volume is configured (`if self.vol:` truthy) every cell
is rescaled to concentration units and the first `__source()` column is
forced to `1`; otherwise the initials pass through unchanged. -/
def encodeMX0 (species : List String) (vol : Option ℚ)
    (mx0 : List (List ℚ)) : List (List ℚ) :=
  match vol with
  | none => mx0
  | some v =>
    if v = 0 then mx0
    else mx0.map (encodeRow v (species.findIdx? (fun s => s == "__source()")) 0)

/-- The volume correction applied to loaded concentrations by
`_load_trajectories` (cupsoda.py line 555): each loaded cell is
multiplied by `N_A * vol` to return number units. -/
def volumeDecode (v : ℚ) (m : List (List ℚ)) : List (List ℚ) :=
  m.map (fun row => row.map (fun y => y * (N_A * v)))

/-- The boolean output-species mask built by `_create_input_files`
(cupsoda.py lines 379-382): start from `[False] * n_species` and set the
entry of every species index referenced by any observable to `True`. -/
def buildMask (nSpecies : ℕ) (observables : List (List ℕ)) : List Bool :=
  observables.foldl (fun m obs => obs.foldl (fun m i => m.set i true) m)
    (List.replicate nSpecies false)

/-- The output-species selector written to `cs_vector` (cupsoda.py lines
375-388): in observables-only mode, the indices whose mask entry is true,
in increasing order; otherwise `range(n_species)`. -/
def outSpecies (obsOnly : Bool) (nSpecies : ℕ)
    (observables : List (List ℕ)) : List ℕ :=
  if obsOnly then
    (List.range nSpecies).filter (fun i => (buildMask nSpecies observables).getD i false)
  else
    List.range nSpecies

/-- `default_threads_per_block` in `_get_nblocks` (cupsoda.py line 334),
used directly when pycuda is unavailable (`use_pycuda = False`). -/
def defaultThreadsPerBlock : ℕ := 32

/-- `_get_nblocks` on the pycuda-less path (cupsoda.py lines 331-348):
an explicitly configured `n_blocks` is returned verbatim; otherwise the
result is `ceil(n_sims / threads_per_block)` with the default 32 threads
per block. -/
def getNblocks (optNblocks : Option ℕ) (nSims : ℕ) : ℕ :=
  match optNblocks with
  | some b => b
  | none => (nSims + defaultThreadsPerBlock - 1) / defaultThreadsPerBlock

/-- Failures of `_load_trajectories` (cupsoda.py lines 520-540), named
after the spec's error taxonomy (all raised as `SimulatorException` in
the code). -/
inductive LoadError where
  | noOutputFiles
  | countMismatch (found expected : ℕ)
  | missingFile (name : String)
deriving DecidableEq, Repr

/-- The per-index file lookup of `_load_trajectories` (cupsoda.py lines
534-549): the file `<prefix>_<n>` must exist in the output directory;
its parsed contents are then taken as that simulation's data. -/
def loadOne (pfx : String) (dirFiles : List String)
    (readFile : String → List (List ℚ)) (n : ℕ) :
    Except LoadError (List (List ℚ)) :=
  let filename := pfx ++ "_" ++ toString n
  if dirFiles.contains filename then Except.ok (readFile filename)
  else Except.error (LoadError.missingFile filename)

/-- The file-discovery phase of `_load_trajectories` (cupsoda.py lines
520-556): list the directory entries matching the run prefix
(`re.match(self._prefix, filename)`, embedded as a literal
prefix-of-characters test), fail when there are none or when the count
differs from the number of requested simulations, and only then read
each expected file in turn.
(`dirFiles` is the directory listing, `readFile` the parsed contents of
a file; trajectory reassembly and the volume correction are modelled by
`volumeDecode`.) -/
def loadTrajectories (pfx : String) (dirFiles : List String) (nSims : ℕ)
    (readFile : String → List (List ℚ)) :
    Except LoadError (List (List (List ℚ))) :=
  if (dirFiles.filter (fun f => pfx.toList.isPrefixOf f.toList)).length = 0 then
    Except.error LoadError.noOutputFiles
  else if (dirFiles.filter (fun f => pfx.toList.isPrefixOf f.toList)).length ≠ nSims then
    Except.error
      (LoadError.countMismatch
        (dirFiles.filter (fun f => pfx.toList.isPrefixOf f.toList)).length nSims)
  else (List.range nSims).mapM (loadOne pfx dirFiles readFile)

/-- Python's `str.rstrip(chars)`: remove trailing characters belonging to
the character set `cs`. -/
def rstripSet (s : String) (cs : String) : String :=
  ⟨(s.toList.reverse.dropWhile (fun c => cs.toList.contains c)).reverse⟩

/-- Python's `str.rstrip()`: remove trailing whitespace. -/
def rstripWs (s : String) : String :=
  ⟨(s.toList.reverse.dropWhile Char.isWhitespace).reverse⟩

/-- The message of the exception raised on a nonzero solver exit code
(cupsoda.py lines 313-315): `p_out.rstrip("at line") + "\n" +
p_err.rstrip()`.  Note `rstrip("at line")` strips trailing characters
from the set {a, t, space, l, i, n, e}, not a trailing literal. -/
def solverErrorMessage (pOut pErr : String) : String :=
  rstripSet pOut "at line" ++ "\n" ++ rstripWs pErr

/-- The exit-code check of `run` (cupsoda.py lines 313-315): a nonzero
return code raises with `solverErrorMessage`; a zero return code
proceeds. -/
def runSolver (returncode : ℤ) (pOut pErr : String) : Except String Unit :=
  if returncode ≠ 0 then Except.error (solverErrorMessage pOut pErr)
  else Except.ok ()

/-- Failures of `_get_cupsoda_path` (cupsoda.py lines 43-98), raised as
`SimulatorException` in the code. -/
inductive PathError where
  | envSetButInvalid
  | notFoundInStandardLocations
deriving DecidableEq, Repr

/-- `_check_bin_dir` (cupsoda.py lines 63-70): the full path of the
`cupSODA` executable inside `binDir` when such a file exists there
(`os.access(..., F_OK)`), else nothing. -/
def checkBinDir (fileExists : String → Bool) (binDir : String) : Option String :=
  let binPath := binDir ++ "/cupSODA"
  if fileExists binPath then some binPath else none

/-- The hard-coded standard install locations (cupsoda.py lines 58-61). -/
def binDirs : List String :=
  ["/usr/local/share/cupSODA", "c:/Program Files/cupSODA"]

/-- `_get_cupsoda_path` (cupsoda.py lines 43-98): return the cached path
when set; otherwise consult the `CUPSODAPATH` environment variable,
raising when it is set but its directory holds no executable; otherwise
enter the loop over the standard locations — whose `else` clause raises
inside the first iteration, so only the head of `binDirs` is ever
consulted before `SimulatorException` is raised. -/
def getCupsodaPath (cached : Option String) (envVar : Option String)
    (fileExists : String → Bool) : Except PathError String :=
  match cached with
  | some p => Except.ok p
  | none =>
    match envVar with
    | some d =>
      match checkBinDir fileExists d with
      | some p => Except.ok p
      | none => Except.error PathError.envSetButInvalid
    | none =>
      match binDirs with
      | [] => Except.error PathError.notFoundInStandardLocations
      | b :: _ =>
        match checkBinDir fileExists b with
        | some p => Except.ok p
        | none => Except.error PathError.notFoundInStandardLocations

/-- Tab-join of one row's cell strings, as built by the `line` loops of
`_create_input_files` (separator only between cells). -/
def joinCols : List String → String
  | [] => ""
  | [c] => c
  | c :: rest => c ++ "\t" ++ joinCols rest

/-- Newline-join of a file's row strings, as written by
`_create_input_files` (separator only between rows, so nothing after the
final row). -/
def joinRows : List String → String
  | [] => ""
  | [r] => r
  | r :: rest => r ++ "\n" ++ joinRows rest

/-- `atol_vector` (cupsoda.py lines 354-360): the absolute-tolerance
string repeated once per species, newline-separated. -/
def atolVectorContent (atol : String) (nSpecies : ℕ) : String :=
  joinRows (List.replicate nSpecies atol)

/-- `c_matrix` (cupsoda.py lines 362-373): the stringified rate matrix,
tab/newline-delimited.  Cells are the `str(...)` forms of the computed
rates. -/
def cMatrixContent (cells : List (List String)) : String :=
  joinRows (cells.map joinCols)

/-- `cs_vector` (cupsoda.py lines 375-388): the stringified output
species indices, one per row. -/
def csVectorContent (indices : List String) : String :=
  joinRows indices

/-- `left_side` (cupsoda.py lines 390-405): the stringified reactant
stoichiometry matrix, tab/newline-delimited. -/
def leftSideContent (cells : List (List String)) : String :=
  joinRows (cells.map joinCols)

/-- `right_side` (cupsoda.py lines 442-458): the stringified product
stoichiometry matrix, tab/newline-delimited. -/
def rightSideContent (cells : List (List String)) : String :=
  joinRows (cells.map joinCols)

/-- `max_steps` (cupsoda.py lines 407-409): the single stringified
scalar, nothing after it. -/
def maxStepsContent (maxSteps : String) : String := maxSteps

/-- `modelkind` (cupsoda.py lines 411-415): the literal
`deterministic`. -/
def modelKindContent : String := "deterministic"

/-- `MX_0` (cupsoda.py lines 417-440): the stringified (possibly
volume-rescaled) initial-value matrix, tab/newline-delimited. -/
def mx0Content (cells : List (List String)) : String :=
  joinRows (cells.map joinCols)

/-- `rtol` (cupsoda.py lines 460-462): the single stringified scalar. -/
def rtolContent (rtol : String) : String := rtol

/-- `t_vector` (cupsoda.py lines 464-467): `str(float(t)) + "\n"` for
every time sample — including the last, so this file does end with a
newline. -/
def tVectorContent : List String → String
  | [] => ""
  | t :: rest => t ++ "\n" ++ tVectorContent rest

/-- `time_max` (cupsoda.py lines 469-471): the stringified final time
sample. -/
def timeMaxContent (tspan : List String) : String :=
  tspan.getLastD ""

/-- A cell string as produced by `str(...)` on a number: nonempty and
newline-free. -/
abbrev cleanCell (s : String) : Prop := s.toList ≠ [] ∧ '\n' ∉ s.toList

/-- A file content ends with a newline byte. -/
abbrev endsWithNewline (s : String) : Prop := s.toList.getLast? = some '\n'

/-- Errors of one `run` invocation (cupsoda.py lines 239-321). -/
inductive RunError where
  | solverFailure (msg : String)
  | loadFailure (e : LoadError)
deriving DecidableEq, Repr

/-- Outcome of one `run` invocation: the result and whether
`shutil.rmtree(self.outdir)` was reached. -/
structure RunOutcome where
  result : Except RunError (List (List (List ℚ)))
  cleanupAttempted : Bool
deriving Repr

/-- Whether an `Except` result is a success. -/
def exceptOk : Except RunError (List (List (List ℚ))) → Bool
  | Except.ok _ => true
  | Except.error _ => false

/-- The tail of `run` (cupsoda.py lines 305-321): propagate a solver
failure, then propagate a load failure, and only on the success path,
when cleanup is enabled, remove the working directory (the
`if self._cleanup: shutil.rmtree(...)` at lines 318-319 sits after
`_load_trajectories` and outside any `try`/`finally`). -/
def runPipeline (cleanup : Bool) (returncode : ℤ) (pOut pErr : String)
    (pfx : String) (dirFiles : List String) (nSims : ℕ)
    (readFile : String → List (List ℚ)) : RunOutcome :=
  match runSolver returncode pOut pErr with
  | Except.error msg => ⟨Except.error (RunError.solverFailure msg), false⟩
  | Except.ok _ =>
    match loadTrajectories pfx dirFiles nSims readFile with
    | Except.error e => ⟨Except.error (RunError.loadFailure e), false⟩
    | Except.ok t => ⟨Except.ok t, cleanup⟩

/-! ### Helper lemmas -/

/-- Appending strings concatenates their character lists. -/
theorem strToListAppend (a b : String) : (a ++ b).toList = a.toList ++ b.toList := rfl

/-- Decidable equality of `Except` results, to evaluate the embedded
functions on concrete inputs. -/
instance exceptDecEq {ε α : Type} [DecidableEq ε] [DecidableEq α] :
    DecidableEq (Except ε α) := fun a b =>
  match a, b with
  | Except.ok x, Except.ok y =>
    if h : x = y then Decidable.isTrue (by rw [h])
    else Decidable.isFalse (by intro hc; cases hc; exact h rfl)
  | Except.ok _, Except.error _ => Decidable.isFalse (by intro hc; cases hc)
  | Except.error _, Except.ok _ => Decidable.isFalse (by intro hc; cases hc)
  | Except.error x, Except.error y =>
    if h : x = y then Decidable.isTrue (by rw [h])
    else Decidable.isFalse (by intro hc; cases hc; exact h rfl)

/-- Cell-level view of `encodeRow`: the entry at offset `j` of a row
encoded from absolute index `k` is the original entry divided by
`N_A * v`, unless `k + j` is the source column, which is forced to 1. -/
theorem encodeRow_getElem (v : ℚ) (src : Option ℕ) (row : List ℚ) (k j : ℕ) :
    (encodeRow v src k row)[j]? =
      row[j]?.map (fun x => if src = some (k + j) then 1 else x / (N_A * v)) := by
  induction row generalizing k j with
  | nil => simp [encodeRow]
  | cons x rest ih =>
    cases j with
    | zero => simp [encodeRow]
    | succ n =>
      simp only [encodeRow, List.getElem?_cons_succ]
      have hk : (k + 1) + n = k + (n + 1) := by omega
      rw [ih, hk]

/-- Folding `set _ true` over a list of indices preserves the mask's
length. -/
theorem foldlSet_length (obs : List ℕ) (m : List Bool) :
    (obs.foldl (fun m i => m.set i true) m).length = m.length := by
  induction obs generalizing m with
  | nil => rfl
  | cons i rest ih => simp [List.foldl_cons, ih, List.length_set]

/-- A mask entry is true after folding `set _ true` over `obs` exactly
when it was already true or its index occurs in `obs` (all indices of
`obs` being in range). -/
theorem foldlSet_getD (obs : List ℕ) (m : List Bool) (j : ℕ)
    (hb : ∀ i ∈ obs, i < m.length) :
    ((obs.foldl (fun m i => m.set i true) m).getD j false = true ↔
      m.getD j false = true ∨ j ∈ obs) := by
  induction obs generalizing m with
  | nil => simp
  | cons i rest ih =>
    have hi : i < m.length := hb i (List.mem_cons_self i rest)
    have hrest : ∀ a ∈ rest, a < (m.set i true).length := by
      intro a ha
      rw [List.length_set]
      exact hb a (List.mem_cons_of_mem i ha)
    have hset : ((m.set i true).getD j false = true) ↔
        (m.getD j false = true ∨ j = i) := by
      rw [List.getD_eq_getElem?_getD, List.getD_eq_getElem?_getD,
        List.getElem?_set]
      by_cases hij : i = j
      · have hj : j < m.length := hij ▸ hi
        simp [hij, hj]
      · have hji : ¬j = i := fun h => hij h.symm
        simp [hij, hji]
    simp only [List.foldl_cons]
    rw [ih (m.set i true) hrest, hset, List.mem_cons]
    tauto

/-- A `buildMask` entry is true exactly when its index is referenced by
some observable (all referenced indices being in range). -/
theorem buildMask_getD (nSpecies : ℕ) (obss : List (List ℕ)) (j : ℕ)
    (hb : ∀ obs ∈ obss, ∀ i ∈ obs, i < nSpecies) :
    ((buildMask nSpecies obss).getD j false = true ↔ ∃ obs ∈ obss, j ∈ obs) := by
  unfold buildMask
  have hgen : ∀ (obss2 : List (List ℕ)) (m : List Bool),
      (∀ obs ∈ obss2, ∀ i ∈ obs, i < m.length) →
      ((obss2.foldl (fun m obs => obs.foldl (fun m i => m.set i true) m) m).getD
          j false = true ↔
        m.getD j false = true ∨ ∃ obs ∈ obss2, j ∈ obs) := by
    intro obss2
    induction obss2 with
    | nil => intro m hm; simp
    | cons obs rest ih =>
      intro m hm
      have hobs : ∀ i ∈ obs, i < m.length :=
        hm obs (List.mem_cons_self obs rest)
      have hrest : ∀ o ∈ rest, ∀ i ∈ o,
          i < (obs.foldl (fun m i => m.set i true) m).length := by
        intro o ho i hio
        rw [foldlSet_length]
        exact hm o (List.mem_cons_of_mem obs ho) i hio
      simp only [List.foldl_cons]
      rw [ih (obs.foldl (fun m i => m.set i true) m) hrest,
        foldlSet_getD obs m j hobs]
      constructor
      · rintro ((hm0 | hji) | ⟨o, ho, hjo⟩)
        · exact Or.inl hm0
        · exact Or.inr ⟨obs, List.mem_cons_self obs rest, hji⟩
        · exact Or.inr ⟨o, List.mem_cons_of_mem obs ho, hjo⟩
      · rintro (hm0 | ⟨o, ho, hjo⟩)
        · exact Or.inl (Or.inl hm0)
        · rcases List.mem_cons.mp ho with rfl | ho2
          · exact Or.inl (Or.inr hjo)
          · exact Or.inr ⟨o, ho2, hjo⟩
  rw [hgen obss (List.replicate nSpecies false)
    (by simpa [List.length_replicate] using hb)]
  have hrep : (List.replicate nSpecies false).getD j false = false := by
    rw [List.getD_eq_getElem?_getD, List.getElem?_replicate]
    split <;> rfl
  simp [hrep]

/-- The last element of a list, when present, is a member. -/
theorem mem_of_getLastEq {α : Type} {l : List α} {a : α}
    (h : l.getLast? = some a) : a ∈ l := by
  have hx : a ∈ l.getLast? := h
  obtain ⟨hne, heq⟩ := List.mem_getLast?_eq_getLast hx
  rw [heq]
  exact List.getLast_mem hne

/-- A nonempty newline-free string does not end with a newline. -/
theorem cleanNoTrailing (s : String) (h : cleanCell s) :
    ¬ endsWithNewline s := fun hl => h.2 (mem_of_getLastEq hl)

/-- A tab-join of nonempty newline-free cells is nonempty and
newline-free. -/
theorem joinCols_clean (cells : List String) (hne : cells ≠ [])
    (hc : ∀ c ∈ cells, cleanCell c) : cleanCell (joinCols cells) := by
  induction cells with
  | nil => cases hne rfl
  | cons c rest ih =>
    cases rest with
    | nil => exact hc c (List.mem_cons_self c [])
    | cons d rest2 =>
      have h1 : cleanCell c := hc c (List.mem_cons_self c (d :: rest2))
      have h2 : cleanCell (joinCols (d :: rest2)) := by
        refine ih (by simp) ?_
        intro x hx
        exact hc x (List.mem_cons_of_mem c hx)
      show cleanCell (c ++ "\t" ++ joinCols (d :: rest2))
      constructor
      · rw [strToListAppend, strToListAppend]
        simp [h1.1]
      · rw [strToListAppend, strToListAppend]
        intro hmem
        rcases List.mem_append.mp hmem with hmem1 | hmem2
        · rcases List.mem_append.mp hmem1 with hmem1a | hmem1b
          · exact h1.2 hmem1a
          · simp at hmem1b
        · exact h2.2 hmem2

/-- A newline-join of nonempty rows is nonempty. -/
theorem joinRows_toList_ne_nil (rows : List String) (hne : rows ≠ [])
    (hc : ∀ r ∈ rows, cleanCell r) : (joinRows rows).toList ≠ [] := by
  cases rows with
  | nil => cases hne rfl
  | cons r rest =>
    cases rest with
    | nil => exact (hc r (List.mem_cons_self r [])).1
    | cons d rest2 =>
      show ((r ++ "\n" ++ joinRows (d :: rest2)).toList ≠ [])
      rw [strToListAppend, strToListAppend]
      simp

/-- A newline-join of nonempty newline-free rows has no trailing
newline. -/
theorem joinRows_no_trailing (rows : List String)
    (hc : ∀ r ∈ rows, cleanCell r) : ¬ endsWithNewline (joinRows rows) := by
  induction rows with
  | nil => exact fun h => Option.noConfusion h
  | cons r rest ih =>
    cases rest with
    | nil => exact cleanNoTrailing r (hc r (List.mem_cons_self r []))
    | cons d rest2 =>
      have hrest : ∀ x ∈ d :: rest2, cleanCell x := by
        intro x hx
        exact hc x (List.mem_cons_of_mem r hx)
      have htail : (joinRows (d :: rest2)).toList ≠ [] :=
        joinRows_toList_ne_nil (d :: rest2) (by simp) hrest
      intro h
      have h2 : ((r ++ "\n" ++ joinRows (d :: rest2)).toList.getLast? = some '\n') := h
      rw [strToListAppend, strToListAppend,
        List.append_assoc, List.getLast?_append_of_ne_nil,
        List.getLast?_append_of_ne_nil] at h2
      · exact ih hrest h2
      · exact htail
      · simp [htail]

/-- `t_vector`'s content ends with a newline whenever the time span is
nonempty. -/
theorem tVector_trailing (ts : List String) (hne : ts ≠ []) :
    endsWithNewline (tVectorContent ts) := by
  induction ts with
  | nil => cases hne rfl
  | cons t rest ih =>
    cases rest with
    | nil =>
      show ((t ++ "\n" ++ tVectorContent []).toList.getLast? = some '\n')
      rw [strToListAppend, strToListAppend, List.append_assoc,
        List.getLast?_append_of_ne_nil]
      · decide
      · decide
    | cons d rest2 =>
      have h := ih (by simp)
      have htail : (tVectorContent (d :: rest2)).toList ≠ [] := by
        intro hnil
        have h3 : (tVectorContent (d :: rest2)).toList.getLast? = some '\n' := h
        rw [hnil] at h3
        simp at h3
      show ((t ++ "\n" ++ tVectorContent (d :: rest2)).toList.getLast? = some '\n')
      rw [strToListAppend, strToListAppend, List.append_assoc,
        List.getLast?_append_of_ne_nil, List.getLast?_append_of_ne_nil]
      · exact h
      · exact htail
      · simp [htail]

/-- List form of the `_*s` match: the head of the list after dropping
leading underscores is `s` exactly when some position `k` holds `s` with
only underscores before it. -/
theorem dropWhileUnderscore_iff (l : List Char) :
    ((l.dropWhile (fun c => c = '_')).head? = some 's') ↔
      ∃ k, (∀ c ∈ l.take k, c = '_') ∧ l.get? k = some 's' := by
  induction l with
  | nil => simp
  | cons c t ih =>
    by_cases hc : c = '_'
    · subst hc
      rw [List.dropWhile_cons]
      simp only [decide_True, if_true]
      rw [ih]
      constructor
      · rintro ⟨k, hk, hs⟩
        refine ⟨k + 1, ?_, by simpa using hs⟩
        intro x hx
        rcases List.mem_cons.mp (by simpa using hx) with rfl | hx2
        · rfl
        · exact hk x hx2
      · rintro ⟨k, hk, hs⟩
        cases k with
        | zero => simp at hs
        | succ n =>
          refine ⟨n, ?_, by simpa using hs⟩
          intro x hx
          exact hk x (by simp [List.take_succ_cons]; exact Or.inr hx)
    · rw [List.dropWhile_cons]
      have hcb : (decide (c = '_')) = false := by
        simp [hc]
      rw [hcb]
      show ((c :: t).head? = some 's') ↔ _
      rw [List.head?_cons]
      constructor
      · intro h
        refine ⟨0, by simp, by simpa using h⟩
      · rintro ⟨k, hk, hs⟩
        cases k with
        | zero => simpa using hs
        | succ n =>
          exact absurd (hk c (by simp [List.take_succ_cons])) hc

/-! ### Claims -/

/-- C3: in observables-only mode the selector contains exactly the
species indices referenced by some observable (in increasing order);
with the mode disabled it is the full index range `[0, n_species)`. -/
theorem out_species_selector (nSpecies : ℕ) (obss : List (List ℕ))
    (hb : ∀ obs ∈ obss, ∀ i ∈ obs, i < nSpecies) :
    (∀ i, i ∈ outSpecies true nSpecies obss ↔ ∃ obs ∈ obss, i ∈ obs) ∧
    outSpecies false nSpecies obss = List.range nSpecies := by
  constructor
  · intro i
    show i ∈ (List.range nSpecies).filter
      (fun i => (buildMask nSpecies obss).getD i false) ↔ _
    rw [List.mem_filter, List.mem_range]
    constructor
    · rintro ⟨-, hm⟩
      exact (buildMask_getD nSpecies obss i hb).mp hm
    · intro hex
      refine ⟨?_, (buildMask_getD nSpecies obss i hb).mpr hex⟩
      obtain ⟨obs, ho, hi⟩ := hex
      exact hb obs ho i hi
  · rfl

/-- Witness for C3: two species, one observable covering species 0. -/
theorem out_species_selector_witness :
    ((0 : ℕ) ∈ outSpecies true 2 [[0]] ↔ ∃ obs ∈ [[0]], (0 : ℕ) ∈ obs) ∧
    outSpecies false 2 [[0]] = List.range 2 :=
  ⟨(out_species_selector 2 [[0]] (by decide)).1 0,
   (out_species_selector 2 [[0]] (by decide)).2⟩

/-- C1 (amended): for every configured volume `v > 0`, every initial
matrix, every simulation row and every species column other than the
first `__source()` column, dividing by `N_A * v` when writing `MX_0` and
multiplying the loaded value by `N_A * v` returns the original value
exactly (so in particular up to floating-point tolerance). -/
theorem initials_roundtrip_nonsource (v : ℚ) (hv : 0 < v)
    (species : List String) (mx0 : List (List ℚ)) (i j : ℕ)
    (row : List ℚ) (x : ℚ)
    (hrow : mx0[i]? = some row) (hx : row[j]? = some x)
    (hsrc : species.findIdx? (fun s => s == "__source()") ≠ some j) :
    ∃ row2,
      (volumeDecode v (encodeMX0 species (some v) mx0))[i]? = some row2 ∧
      row2[j]? = some x := by
  have hNAv : N_A * v ≠ 0 := mul_ne_zero (by norm_num [N_A]) hv.ne'
  refine ⟨(encodeRow v (species.findIdx? (fun s => s == "__source()")) 0 row).map
    (fun y => y * (N_A * v)), ?_, ?_⟩
  · show (volumeDecode v (if v = 0 then mx0 else
      mx0.map (encodeRow v (species.findIdx? (fun s => s == "__source()")) 0)))[i]? = _
    rw [if_neg hv.ne']
    unfold volumeDecode
    rw [List.getElem?_map, List.getElem?_map, hrow]
    rfl
  · rw [List.getElem?_map, encodeRow_getElem, hx]
    have hne : ¬ species.findIdx? (fun s => s == "__source()") = some (0 + j) := by
      simpa using hsrc
    simp only [Option.map_some', if_neg hne]
    rw [div_mul_cancel₀ x hNAv]

/-- Witness for C1 (amended) at `v = 1`, one species, initial value 3. -/
theorem initials_roundtrip_nonsource_witness :
    ∃ row2,
      (volumeDecode 1 (encodeMX0 ["A"] (some 1) [[3]]))[0]? = some row2 ∧
      row2[0]? = some 3 :=
  initials_roundtrip_nonsource 1 (by norm_num) ["A"] [[3]] 0 0 [3] 3 rfl rfl
    (by decide)

/-- C1 counterexample: with a `__source()` species present, the round
trip does not return the initial matrix — the source column is forced to
1 when encoding and decodes to `N_A * v`, not to its initial value. -/
theorem initials_roundtrip_counterexample :
    volumeDecode 1 (encodeMX0 ["A", "__source()"] (some 1) [[2, 5]]) ≠ [[2, 5]] := by
  have hsrc : List.findIdx? (fun s => s == "__source()") ["A", "__source()"] =
      some 1 := by decide
  have hval : volumeDecode 1 (encodeMX0 ["A", "__source()"] (some 1) [[2, 5]]) =
      [[2 / (N_A * 1) * (N_A * 1), 1 * (N_A * 1)]] := by
    show volumeDecode 1 (if (1 : ℚ) = 0 then [[2, 5]] else
      List.map (encodeRow 1
        (List.findIdx? (fun s => s == "__source()") ["A", "__source()"]) 0)
        [[2, 5]]) = _
    rw [if_neg (by norm_num : ¬(1 : ℚ) = 0), hsrc]
    rfl
  rw [hval]
  intro hc
  simp only [List.cons.injEq, and_true] at hc
  have h2 : (1 : ℚ) * (N_A * 1) = 5 := hc.2
  norm_num [N_A] at h2

/-- C2: in the rate-matrix compiler, whenever a system volume `v > 0` is
configured, every cell of the rate matrix equals the product of the
reaction's evaluated rate arguments multiplied by
`(N_A * v) ^ (reactant_count - 1)`, where the reactant count excludes
occurrences of the source pseudo-species `__source()`. -/
theorem cmatrix_volume_correction (v : ℚ) (hv : 0 < v)
    (species : List String) (row : List (String × ℚ)) (r : Reaction) (p : ℚ)
    (hp : rateProduct row (retainedArgs r.rateArgs) = Except.ok p) :
    cmatrixCell (some v) species row r =
      Except.ok (p * (N_A * v) ^ ((rateOrder species r : ℤ) - 1)) := by
  unfold cmatrixCell
  rw [hp]
  simp [hv.ne']
  rfl

/-- Witness for C2 at a one-parameter bimolecular reaction. -/
theorem cmatrix_volume_correction_witness :
    cmatrixCell (some 1) ["A", "B"] [("kf", 2)] ⟨[0, 1], [0], ["kf"]⟩ =
      Except.ok ((2 * 1) *
        (N_A * 1) ^ ((rateOrder ["A", "B"] ⟨[0, 1], [0], ["kf"]⟩ : ℤ) - 1)) :=
  cmatrix_volume_correction 1 (by norm_num) ["A", "B"] [("kf", 2)]
    ⟨[0, 1], [0], ["kf"]⟩ (2 * 1) rfl

/-- C4: for `n_sims ≥ 1` the auto-computed block count satisfies
`blocks * threads_per_block ≥ n_sims`; without GPU-query capability the
planner uses the static default of 32 threads per block (and, being a
total function of the option and `n_sims`, cannot fail for that reason);
an explicitly configured block count is returned verbatim. -/
theorem block_planner_covers (nSims : ℕ) (h : 1 ≤ nSims) :
    getNblocks none nSims * defaultThreadsPerBlock ≥ nSims ∧
    defaultThreadsPerBlock = 32 ∧
    ∀ b, getNblocks (some b) nSims = b := by
  refine ⟨?_, rfl, fun b => rfl⟩
  show (nSims + defaultThreadsPerBlock - 1) / defaultThreadsPerBlock *
    defaultThreadsPerBlock ≥ nSims
  unfold defaultThreadsPerBlock
  omega

/-- Witness for C4 at `n_sims = 33`. -/
theorem block_planner_covers_witness :
    getNblocks none 33 * defaultThreadsPerBlock ≥ 33 ∧
    getNblocks (some 7) 33 = 7 :=
  ⟨(block_planner_covers 33 (by norm_num)).1,
   (block_planner_covers 33 (by norm_num)).2.2 7⟩

/-- C5: whenever the number of output files matching the run prefix
differs from `n_sims`, the output decoder fails (with the no-files error
when none match, the count-mismatch error otherwise) — and since the
returned error is independent of the file-reading function, it is raised
before any trajectory data is decoded and no result is produced. -/
theorem missing_output_guard (pfx : String) (dirFiles : List String)
    (nSims : ℕ) (readFile : String → List (List ℚ))
    (h : (dirFiles.filter (fun f => pfx.toList.isPrefixOf f.toList)).length ≠ nSims) :
    loadTrajectories pfx dirFiles nSims readFile =
      Except.error
        (if (dirFiles.filter (fun f => pfx.toList.isPrefixOf f.toList)).length = 0 then
          LoadError.noOutputFiles
        else
          LoadError.countMismatch
            (dirFiles.filter (fun f => pfx.toList.isPrefixOf f.toList)).length nSims) := by
  unfold loadTrajectories
  by_cases h0 : (dirFiles.filter (fun f => pfx.toList.isPrefixOf f.toList)).length = 0
  · rw [if_pos h0, if_pos h0]
  · rw [if_neg h0, if_pos h, if_neg h0]

/-- Witness for C5: two output files for three requested simulations. -/
theorem missing_output_guard_witness :
    loadTrajectories "run" ["run_0", "run_1"] 3 (fun _ => []) =
      Except.error
        (if (["run_0", "run_1"].filter
            (fun f => "run".toList.isPrefixOf f.toList)).length = 0 then
          LoadError.noOutputFiles
        else
          LoadError.countMismatch
            (["run_0", "run_1"].filter
              (fun f => "run".toList.isPrefixOf f.toList)).length 3) :=
  missing_output_guard "run" ["run_0", "run_1"] 3 (fun _ => []) (by decide)

/-- C9 counterexample: with cleanup enabled, a solver failure (nonzero
exit code) leaves `cleanupAttempted = false` — removal of the working
directory is not attempted on that failure path, refuting the claim that
it is attempted on every failure path. -/
theorem cleanup_skipped_on_failure :
    (runPipeline true 1 "solver output" "boom" "run" [] 1 (fun _ => [])).cleanupAttempted
        = false ∧
    exceptOk (runPipeline true 1 "solver output" "boom" "run" [] 1
        (fun _ => [])).result = false :=
  ⟨rfl, rfl⟩

/-- C9 amended: removal of the working directory is attempted exactly
when cleanup is enabled and the run reaches the success path; on every
failure path (solver error, missing-output error, decode error) it is
skipped, the `shutil.rmtree` call sitting after `_load_trajectories`
outside any `try`/`finally`. -/
theorem cleanup_only_on_success (cleanup : Bool) (rc : ℤ)
    (pOut pErr pfx : String) (dirFiles : List String) (nSims : ℕ)
    (readFile : String → List (List ℚ)) :
    (runPipeline cleanup rc pOut pErr pfx dirFiles nSims readFile).cleanupAttempted =
      (cleanup &&
        exceptOk (runPipeline cleanup rc pOut pErr pfx dirFiles nSims readFile).result) := by
  unfold runPipeline
  cases hs : runSolver rc pOut pErr with
  | error msg => simp [exceptOk]
  | ok u =>
    cases hl : loadTrajectories pfx dirFiles nSims readFile with
    | error e => simp [exceptOk]
    | ok t => simp [exceptOk]

/-- C6 counterexample: with stdout `"fatal"` and stderr `"boom"`, the
raised message is `"f\nboom"` — `rstrip("at line")` strips trailing
characters from the set {a,t,space,l,i,n,e}, so the captured stdout text
`"fatal"` does not occur in the message, refuting the claim that the
message contains the captured stdout/stderr text. -/
theorem solver_error_message_counterexample :
    runSolver 1 "fatal" "boom" = Except.error "f\nboom" ∧
    ¬ List.IsInfix "fatal".toList "f\nboom".toList :=
  ⟨rfl, by decide⟩

/-- C6 amended: a nonzero exit code makes `run` raise (so no result is
returned) with a message consisting of stdout with trailing characters
from the set `"at line"` stripped, a newline, and stderr with trailing
whitespace stripped; the stripped stderr is a suffix of (hence contained
in) the message — in particular stderr `"boom"` yields a message
containing `"boom"`. -/
theorem solver_error_message_contains_stderr (rc : ℤ) (pOut pErr : String)
    (h : rc ≠ 0) :
    runSolver rc pOut pErr = Except.error (solverErrorMessage pOut pErr) ∧
    List.IsSuffix (rstripWs pErr).toList (solverErrorMessage pOut pErr).toList := by
  refine ⟨by simp [runSolver, h], ?_⟩
  refine ⟨(rstripSet pOut "at line").toList ++ ['\n'], ?_⟩
  rw [solverErrorMessage, strToListAppend, strToListAppend]
  simp

/-- Witness for C6 amended at exit code 1 with stderr `"boom"`. -/
theorem solver_error_message_contains_stderr_witness :
    runSolver 1 "output text" "boom" =
      Except.error (solverErrorMessage "output text" "boom") ∧
    List.IsSuffix (rstripWs "boom").toList
      (solverErrorMessage "output text" "boom").toList :=
  solver_error_message_contains_stderr 1 "output text" "boom" (by norm_num)

/-- C7: the claim says each standard install location is tried in turn
and `SolverNotFoundError` is raised exactly when no source yields the
executable; but the loop's `else` clause raises inside the first
iteration, so with no cached path and no environment override the lookup
fails even though the second standard location
(`c:/Program Files/cupSODA`) does contain the executable — contradicting
the function's own docstring and its error message, which lists both
locations as having been checked. -/
theorem binary_discovery_loop_bug :
    getCupsodaPath none none
        (fun p => p == "c:/Program Files/cupSODA/cupSODA") =
      Except.error PathError.notFoundInStandardLocations ∧
    checkBinDir (fun p => p == "c:/Program Files/cupSODA/cupSODA")
        (binDirs.getD 1 "") = some "c:/Program Files/cupSODA/cupSODA" :=
  ⟨rfl, rfl⟩

/-- C8 counterexample: the `t_vector` file written for the time span
`[0.0]` is `"0.0\n"` — it ends with a newline, refuting the claim that
every input file has no trailing newline after its final row. -/
theorem t_vector_trailing_counterexample :
    endsWithNewline (tVectorContent ["0.0"]) := by decide

/-- C8 (amended): every input file except `t_vector` is newline/tab
delimited text with no trailing newline after its final row (given that
the serialized cell values are nonempty and newline-free, as `str` of a
number always is); `t_vector` alone ends with a newline after its final
row. -/
theorem input_files_layout :
    (∀ (atol : String) (n : ℕ), cleanCell atol →
      ¬ endsWithNewline (atolVectorContent atol n)) ∧
    (∀ cells : List (List String),
      (∀ row ∈ cells, row ≠ [] ∧ ∀ c ∈ row, cleanCell c) →
      ¬ endsWithNewline (cMatrixContent cells)) ∧
    (∀ indices : List String, (∀ c ∈ indices, cleanCell c) →
      ¬ endsWithNewline (csVectorContent indices)) ∧
    (∀ cells : List (List String),
      (∀ row ∈ cells, row ≠ [] ∧ ∀ c ∈ row, cleanCell c) →
      ¬ endsWithNewline (leftSideContent cells)) ∧
    (∀ cells : List (List String),
      (∀ row ∈ cells, row ≠ [] ∧ ∀ c ∈ row, cleanCell c) →
      ¬ endsWithNewline (rightSideContent cells)) ∧
    (∀ s : String, cleanCell s → ¬ endsWithNewline (maxStepsContent s)) ∧
    (¬ endsWithNewline modelKindContent) ∧
    (∀ cells : List (List String),
      (∀ row ∈ cells, row ≠ [] ∧ ∀ c ∈ row, cleanCell c) →
      ¬ endsWithNewline (mx0Content cells)) ∧
    (∀ s : String, cleanCell s → ¬ endsWithNewline (rtolContent s)) ∧
    (∀ ts : List String, ts ≠ [] → endsWithNewline (tVectorContent ts)) ∧
    (∀ ts : List String, (∀ t ∈ ts, cleanCell t) →
      ¬ endsWithNewline (timeMaxContent ts)) := by
  have hmatrix : ∀ cells : List (List String),
      (∀ row ∈ cells, row ≠ [] ∧ ∀ c ∈ row, cleanCell c) →
      ¬ endsWithNewline (joinRows (cells.map joinCols)) := by
    intro cells hcells
    refine joinRows_no_trailing (cells.map joinCols) ?_
    intro r hr
    obtain ⟨row, hrow, rfl⟩ := List.mem_map.mp hr
    exact joinCols_clean row (hcells row hrow).1 (hcells row hrow).2
  refine ⟨?_, hmatrix, ?_, hmatrix, hmatrix, ?_, ?_, hmatrix, ?_, ?_, ?_⟩
  · intro atol n hclean
    refine joinRows_no_trailing (List.replicate n atol) ?_
    intro r hr
    rw [List.eq_of_mem_replicate hr]
    exact hclean
  · intro indices hclean
    exact joinRows_no_trailing indices hclean
  · intro s hclean
    exact cleanNoTrailing s hclean
  · decide
  · intro s hclean
    exact cleanNoTrailing s hclean
  · exact tVector_trailing
  · intro ts hclean
    unfold timeMaxContent
    rw [List.getLastD_eq_getLast?]
    cases hlast : ts.getLast? with
    | none => decide
    | some t => exact cleanNoTrailing t (hclean t (mem_of_getLastEq hlast))

/-- Witness for C8 (amended) on concrete small inputs for each file. -/
theorem input_files_layout_witness :
    ¬ endsWithNewline (atolVectorContent "1e-08" 3) ∧
    ¬ endsWithNewline (cMatrixContent [["1.0", "2.0"]]) ∧
    ¬ endsWithNewline (csVectorContent ["0", "2"]) ∧
    ¬ endsWithNewline (leftSideContent [["1", "0"]]) ∧
    ¬ endsWithNewline (rightSideContent [["0", "1"]]) ∧
    ¬ endsWithNewline (maxStepsContent "20000") ∧
    ¬ endsWithNewline modelKindContent ∧
    ¬ endsWithNewline (mx0Content [["0.5"]]) ∧
    ¬ endsWithNewline (rtolContent "1e-08") ∧
    endsWithNewline (tVectorContent ["0.0", "1.0"]) ∧
    ¬ endsWithNewline (timeMaxContent ["0.0", "1.0"]) :=
  ⟨input_files_layout.1 "1e-08" 3 (by decide),
   input_files_layout.2.1 [["1.0", "2.0"]] (by decide),
   input_files_layout.2.2.1 ["0", "2"] (by decide),
   input_files_layout.2.2.2.1 [["1", "0"]] (by decide),
   input_files_layout.2.2.2.2.1 [["0", "1"]] (by decide),
   input_files_layout.2.2.2.2.2.1 "20000" (by decide),
   input_files_layout.2.2.2.2.2.2.1,
   input_files_layout.2.2.2.2.2.2.2.1 [["0.5"]] (by decide),
   input_files_layout.2.2.2.2.2.2.2.2.1 "1e-08" (by decide),
   input_files_layout.2.2.2.2.2.2.2.2.2.1 ["0.0", "1.0"] (by decide),
   input_files_layout.2.2.2.2.2.2.2.2.2.2 ["0.0", "1.0"] (by decide)⟩

/-- C10: a rate argument is excluded exactly when its string form begins
with zero or more underscores followed by `s`; consequently a parameter
whose name has that shape is silently dropped from every rate product in
which it appears; and an included argument that is not a known
rate-parameter name is coerced with `float()` — it never produces the
`ConfigurationError` of the spec's taxonomy, and on a parseable literal
it contributes its parsed value. -/
theorem rate_arg_exclusion :
    (∀ s : String, matchesSpeciesArg s = true ↔
      ∃ k, (∀ c ∈ s.toList.take k, c = '_') ∧ s.toList.get? k = some 's') ∧
    (∀ (args : List String) (a : String),
      a ∈ retainedArgs args ↔ a ∈ args ∧ matchesSpeciesArg a = false) ∧
    (∀ (row : List (String × ℚ)) (l1 l2 : List String) (p : String),
      matchesSpeciesArg p = true →
      rateProduct row (retainedArgs (l1 ++ p :: l2)) =
        rateProduct row (retainedArgs (l1 ++ l2))) ∧
    (∀ (row : List (String × ℚ)) (x : String),
      evalArg row x ≠ Except.error EvalErr.configurationError) ∧
    (∀ (row : List (String × ℚ)) (x : String) (q : ℚ),
      row.lookup x = none → parseFloat x = some q →
      evalArg row x = Except.ok q) := by
  refine ⟨?_, ?_, ?_, ?_, ?_⟩
  · intro s
    unfold matchesSpeciesArg
    rw [decide_eq_true_iff]
    exact dropWhileUnderscore_iff s.toList
  · intro args a
    unfold retainedArgs
    rw [List.mem_filter]
    simp [Bool.not_eq_true']
  · intro row l1 l2 p hp
    unfold retainedArgs
    rw [List.filter_append, List.filter_append, List.filter_cons]
    simp [hp]
  · intro row x h
    unfold evalArg at h
    cases hl : row.lookup x with
    | some v => rw [hl] at h; exact Except.noConfusion h
    | none =>
      rw [hl] at h
      cases hp : parseFloat x with
      | some q => rw [hp] at h; exact Except.noConfusion h
      | none =>
        rw [hp] at h
        exact EvalErr.noConfusion (Except.error.inj h)
  · intro row x q h1 h2
    unfold evalArg
    rw [h1, h2]

/-- Witness for C10: the parameter name `s_param` matches and is dropped
from the rate product; the literal `2.5` is retained; the unparseable
token `abc` fails with `ValueError`, not `ConfigurationError`; the
literal `3` is coerced to its numeric value. -/
theorem rate_arg_exclusion_witness :
    (matchesSpeciesArg "s_param" = true ↔
      ∃ k, (∀ c ∈ "s_param".toList.take k, c = '_') ∧
        "s_param".toList.get? k = some 's') ∧
    ("2.5" ∈ retainedArgs ["2.5", "s_param"] ↔
      "2.5" ∈ ["2.5", "s_param"] ∧ matchesSpeciesArg "2.5" = false) ∧
    rateProduct [] (retainedArgs (["2.5"] ++ "s_param" :: ["kf"])) =
      rateProduct [] (retainedArgs (["2.5"] ++ ["kf"])) ∧
    evalArg [] "abc" ≠ Except.error EvalErr.configurationError ∧
    evalArg [] "3" = Except.ok (digitsVal ['3'] : ℚ) :=
  ⟨rate_arg_exclusion.1 "s_param",
   rate_arg_exclusion.2.1 ["2.5", "s_param"] "2.5",
   rate_arg_exclusion.2.2.1 [] ["2.5"] ["kf"] "s_param" (by decide),
   rate_arg_exclusion.2.2.2.1 [] "abc",
   rate_arg_exclusion.2.2.2.2 [] "3" (digitsVal ['3'] : ℚ) rfl rfl⟩

end Cupsoda
